import Mathlib

/-!
Shallow embedding of `perception_online_evaluator`'s
`MetricsCalculator` (src/evaluator/perception_online_evaluator/src/metrics_calculator.cpp)
and proofs about the object-history store, the deviation-metrics engine and
the path smoother.

Modelling conventions:
* `rclcpp::Time` / `rclcpp::Duration` are exact rationals (seconds).  The
  code compares times through their nanosecond counts; representing both
  sides as the same exact rational preserves every comparison.
* Tracks (`std::map<rclcpp::Time, PredictedObject>`) are association lists
  sorted by strictly increasing stamp; `std::lower_bound` on a sorted
  range is `List.dropWhile (key < value)`.
* The outer `std::unordered_map`s are association lists in a fixed
  iteration order; where a claim depends on the (unspecified) iteration
  order of an unordered container the order is an explicit parameter.
* Geometric routines that live outside this translation unit
  (`metrics::calcLateralDeviation`, `metrics::calcYawDeviation`,
  `tier4_autoware_utils::calcDistance2d` on arbitrary poses) are
  uninterpreted function parameters bundled in `Geom`; no claim depends on
  their values.
* `double` sums/averages of exactly representable inputs are modelled as
  exact rationals; the sentinels `DBL_MAX` and `INT64_MAX` nanoseconds are
  the corresponding exact rational constants.
* Exceptions (`std::map::at` out-of-range, the empty-horizon
  `std::runtime_error`) are `Except.error` values.
* Size_t subtraction wraps modulo 2^64; this matters in
  `averageFilterPath` and is modelled explicitly (`sub64`).
-/

namespace PerceptionDiag

/-- `geometry_msgs::msg::Point` with exact coordinates. -/
structure Position where
  x : ℚ
  y : ℚ
  z : ℚ
  deriving DecidableEq, Repr

/-- Orientation, kept symbolic: either the quaternion the message carried, or
`createQuaternionFromYaw (calcAzimuthAngle p q)` recorded by the position
deltas `(q.x - p.x, q.y - p.y)` it was computed from.  Distinct constructor
arguments in the claims below always denote genuinely distinct angles. -/
inductive Orientation where
  | quat (x y z w : ℚ)
  | bearing (dx dy : ℚ)
  deriving DecidableEq, Repr

structure Pose where
  position : Position
  orientation : Orientation
  deriving DecidableEq, Repr

/-- One predicted-path hypothesis (`PredictedPath` message): poses, the
fixed time step between consecutive poses (seconds), and a confidence. -/
structure PredictedPath where
  path : List Pose
  timeStep : ℚ
  confidence : ℚ
  deriving DecidableEq, Repr

/-- A detected object: its uuid (already rendered to hex, as the calculator
uses it), `kinematics.initial_pose_with_covariance.pose`, and
`kinematics.predicted_paths`. -/
structure PredictedObject where
  object_id : String
  pose : Pose
  predicted_paths : List PredictedPath
  deriving DecidableEq, Repr

/-- `PredictedObjects` message: header stamp plus the object list. -/
structure PredictedObjectsMsg where
  headerStamp : ℚ
  objects : List PredictedObject
  deriving DecidableEq, Repr

/-- One uuid's `std::map<rclcpp::Time, PredictedObject>`: stamp-sorted
association list. -/
abbrev Track := List (ℚ × PredictedObject)

/-- The calculator's mutable state: `object_map_` and `history_path_map_`
(raw path, smoothed path).  `debug_target_object_` is a debug-only cache
and carries no information any claim needs, so it is kept as its key set. -/
structure StoreState where
  objectMap : List (String × Track)
  historyPathMap : List (String × (List Pose × List Pose))
  debugTargetObject : List String
  deriving DecidableEq, Repr

/-- Configuration (`parameters_`): the prediction time horizons (seconds)
and the smoothing window size. -/
structure Parameters where
  predictionTimeHorizons : List ℚ
  smoothingWindowSize : ℕ
  deriving DecidableEq, Repr

/-- External geometric routines, uninterpreted (they are defined in other
translation units of the package). -/
structure Geom where
  latDev : List Pose → Pose → ℚ
  yawDev : List Pose → Pose → ℚ
  dist2 : Position → Position → ℚ

/-- The metric kinds the `switch` in `calculate` handles. -/
inductive Metric where
  | lateral_deviation
  | yaw_deviation
  | predicted_path_deviation
  deriving DecidableEq, Repr

/-- Keys of the returned `MetricStatMap`.  The code renders
`predicted_path_deviation` keys as `"predicted_path_deviation_" +
horizon fixed to two decimals`; the horizon is kept as the exact value. -/
inductive MetricName where
  | lateral_deviation
  | yaw_deviation
  | predicted_path_deviation (horizon : ℚ)
  deriving DecidableEq, Repr

/-- `Stat<double>` is modelled by the list of values passed to
`Stat::add`, in order: count/min/max/mean are derived views of it.  A
zero-count statistic is `[]`. -/
abbrev Stat := List ℚ

abbrev MetricStatMap := List (MetricName × Stat)

/-- Errors that C++ exceptions are mapped to: the
`std::runtime_error("prediction_time_horizons is empty")` thrown by
`getTimeDelay`, and `std::out_of_range` thrown by `std::map::at`. -/
inductive CalcError where
  | emptyHorizons
  | outOfRange
  deriving DecidableEq, Repr

/-- Association-list lookup, the total fragment of `unordered_map::find` /
`::at`. -/
def assocLookup (l : List (String × α)) (k : String) : Option α :=
  (l.find? (fun e => e.1 = k)).map (fun e => e.2)

/-- `INT64_MAX` nanoseconds in seconds: initial value of `min_duration` in
`getClosestStamp`. -/
def I64MAX : ℚ := 9223372036854775807 / 1000000000

/-- `DBL_MAX`, the initial value of `min_sum_deviation`. -/
def DBLMAX : ℚ := (2 ^ 53 - 1) * 2 ^ 971

/-- `MetricsCalculator::getTimeDelay`: maximum of
`parameters_->prediction_time_horizons`; throws when the list is empty. -/
def getTimeDelay (params : Parameters) : Except CalcError ℚ :=
  match params.predictionTimeHorizons with
  | [] => .error .emptyHorizons
  | h :: t => .ok (t.foldl max h)

/-- `MetricsCalculator::hasPassedTime(uuid, stamp)`: false when the uuid is
unknown, else `oldest stamp ≤ stamp`.  (In C++ an *empty* track would make
`begin()->first` undefined; tracks in the map are never empty in any
reachable state, and the model returns `false` there.) -/
def hasPassedTimeKey (st : StoreState) (uuid : String) (stamp : ℚ) : Bool :=
  match assocLookup st.objectMap uuid with
  | none => false
  | some track =>
    match track.head? with
    | none => false
    | some e => decide (e.1 ≤ stamp)

/-- `MetricsCalculator::hasPassedTime(stamp)`: collect the oldest stamp of
every non-empty track; true iff there are none or their minimum is
`≤ stamp`. -/
def hasPassedTimeStore (st : StoreState) (stamp : ℚ) : Bool :=
  let oldest : List ℚ := st.objectMap.filterMap (fun e => e.2.head?.map (fun p => p.1))
  match oldest with
  | [] => true
  | t :: ts => decide (ts.foldl min t ≤ stamp)

/-- Per-track body of `MetricsCalculator::getClosestStamp`: inspect the
`std::lower_bound` for `stamp` and its predecessor, keeping
`(closest_stamp, min_duration)` when a strictly smaller absolute duration
is found (upper candidate first, as in the source). -/
def closestStep (stamp : ℚ) (acc : ℚ × ℚ) (track : Track) : ℚ × ℚ :=
  if track.isEmpty then acc
  else
    let lb := track.dropWhile (fun p => p.1 < stamp)
    let acc1 :=
      match lb.head? with
      | none => acc
      | some p => if |p.1 - stamp| < acc.2 then (p.1, p.1 - stamp) else acc
    match (track.takeWhile (fun p => p.1 < stamp)).getLast? with
    | none => acc1
    | some p => if |stamp - p.1| < acc1.2 then (p.1, stamp - p.1) else acc1

/-- `MetricsCalculator::getClosestStamp`: fold `closestStep` over every
track, starting from the default-constructed time `0` and
`min_duration = INT64_MAX` nanoseconds. -/
def getClosestStamp (st : StoreState) (stamp : ℚ) : ℚ :=
  (st.objectMap.foldl (fun acc e => closestStep stamp acc e.2) ((0 : ℚ), I64MAX)).1

/-- `MetricsCalculator::getObjectByStamp`: `object_map_.at(uuid)` (throws
`std::out_of_range` for an unknown uuid), then `std::lower_bound` for the
*resolved closest stamp* and an exact-equality check against it. -/
def getObjectByStamp (st : StoreState) (uuid : String) (stamp : ℚ) :
    Except CalcError (Option PredictedObject) :=
  match assocLookup st.objectMap uuid with
  | none => .error .outOfRange
  | some track =>
    let closest := getClosestStamp st stamp
    match track.dropWhile (fun p => p.1 < closest) with
    | [] => .ok none
    | p :: _ => if p.1 = closest then .ok (some p.2) else .ok none

/-- `MetricsCalculator::getObjectsByStamp`: resolve the closest stamp once;
the header stamp of the returned batch is the *query* stamp; an object is
included iff its track has an entry at exactly the resolved stamp. -/
def getObjectsByStamp (st : StoreState) (stamp : ℚ) : PredictedObjectsMsg :=
  let closest := getClosestStamp st stamp
  { headerStamp := stamp
    objects := st.objectMap.filterMap (fun e =>
      match e.2.dropWhile (fun p => p.1 < closest) with
      | [] => none
      | p :: _ => if p.1 = closest then some p.2 else none) }

/-- Object loop of `MetricsCalculator::calcLateralDeviationMetrics`: skip
objects whose uuid has not reached `stamp`; `history_path_map_.at(uuid)`
(throws `std::out_of_range` if absent); skip empty smoothed paths; add
`metrics::calcLateralDeviation(history_path, object_pose)` to the stat. -/
def lateralLoop (st : StoreState) (geom : Geom) (stamp : ℚ) :
    List PredictedObject → Stat → Except CalcError Stat
  | [], acc => .ok acc
  | o :: rest, acc =>
    if ¬ hasPassedTimeKey st o.object_id stamp then lateralLoop st geom stamp rest acc
    else
      match assocLookup st.historyPathMap o.object_id with
      | none => .error .outOfRange
      | some hp =>
        if hp.2 = [] then lateralLoop st geom stamp rest acc
        else lateralLoop st geom stamp rest (acc ++ [geom.latDev hp.2 o.pose])

/-- `MetricsCalculator::calcLateralDeviationMetrics`: run the object loop
with the batch's header stamp, then unconditionally store the statistic
under `"lateral_deviation"`. -/
def calcLateralDeviationMetrics (st : StoreState) (geom : Geom)
    (objects : PredictedObjectsMsg) : Except CalcError MetricStatMap :=
  (lateralLoop st geom objects.headerStamp objects.objects []).map
    (fun stat => [(MetricName.lateral_deviation, stat)])

/-- Object loop of `MetricsCalculator::calcYawDeviationMetrics`; identical
selection logic to the lateral loop, adding
`metrics::calcYawDeviation(history_path, object_pose)`. -/
def yawLoop (st : StoreState) (geom : Geom) (stamp : ℚ) :
    List PredictedObject → Stat → Except CalcError Stat
  | [], acc => .ok acc
  | o :: rest, acc =>
    if ¬ hasPassedTimeKey st o.object_id stamp then yawLoop st geom stamp rest acc
    else
      match assocLookup st.historyPathMap o.object_id with
      | none => .error .outOfRange
      | some hp =>
        if hp.2 = [] then yawLoop st geom stamp rest acc
        else yawLoop st geom stamp rest (acc ++ [geom.yawDev hp.2 o.pose])

/-- `MetricsCalculator::calcYawDeviationMetrics`. -/
def calcYawDeviationMetrics (st : StoreState) (geom : Geom)
    (objects : PredictedObjectsMsg) : Except CalcError MetricStatMap :=
  (yawLoop st geom objects.headerStamp objects.objects []).map
    (fun stat => [(MetricName.yaw_deviation, stat)])

/-- Inner pose loop of the recording phase of
`calcPredictedPathDeviationMetrics` (lines 241-264): walk one hypothesis'
poses; `break` once `time_step * j` exceeds the horizon; `continue` when
the store has not reached `stamp + time_step * j` for this uuid or when
`getObjectByStamp` finds no snapshot there; otherwise record
`calcDistance2d(predicted pose, historical pose)`.  The `.error` branch is
unreachable: `hasPassedTime(uuid, ·) = true` implies the uuid is present,
so `object_map_.at(uuid)` cannot throw here. -/
def walkPredictedPath (st : StoreState) (geom : Geom) (uuid : String)
    (stamp horizon timeStep : ℚ) : List Pose → ℕ → List ℚ
  | [], _ => []
  | p :: rest, j =>
    let timeDuration := timeStep * (j : ℚ)
    if timeDuration > horizon then []
    else
      let targetStamp := stamp + timeDuration
      let recorded : List ℚ :=
        if ¬ hasPassedTimeKey st uuid targetStamp then []
        else
          match getObjectByStamp st uuid targetStamp with
          | .error _ => []
          | .ok none => []
          | .ok (some hist) => [geom.dist2 p.position hist.pose.position]
      recorded ++ walkPredictedPath st geom uuid stamp horizon timeStep rest (j + 1)

/-- The `deviation_map_for_paths[uuid]` entry built for one object: one
entry per hypothesis index that received at least one `push_back`
(`operator[]` creates inner-map keys only there), listed here in
insertion (hypothesis-index) order.  The C++ inner container is an
`unordered_map` whose *iteration* order is unspecified; the selection
functions below therefore take the entry order as a parameter. -/
def recordForObject (st : StoreState) (geom : Geom) (stamp horizon : ℚ)
    (o : PredictedObject) : List (ℕ × List ℚ) :=
  (o.predicted_paths.enum.map (fun e =>
    (e.1, walkPredictedPath st geom o.object_id stamp horizon e.2.timeStep e.2.path 0))).filter
    (fun e => e.2 ≠ [])

/-- `deviation_map_for_paths`: outer entries in batch (insertion) order,
one per uuid that recorded at least one distance. -/
def buildDeviationMap (st : StoreState) (geom : Geom) (stamp horizon : ℚ)
    (objs : List PredictedObject) : List (String × List (ℕ × List ℚ)) :=
  objs.foldl (fun acc o =>
    let entries := recordForObject st geom stamp horizon o
    if entries = [] then acc else acc ++ [(o.object_id, entries)]) []

/-- Selection loop of `calcPredictedPathDeviationMetrics` (lines 270-282):
fold over the inner map's entries in iteration order, starting from
`(min_deviation_index, min_sum_deviation) = (0, DBL_MAX)`; skip empty
vectors; keep the entry whose `std::accumulate` sum is strictly smaller
than the best so far. -/
def selectLoop : List (ℕ × List ℚ) → ℕ × ℚ → ℕ × ℚ
  | [], acc => acc
  | (i, ds) :: rest, (mi, ms) =>
    if ds = [] then selectLoop rest (mi, ms)
    else if ds.sum < ms then selectLoop rest (i, ds.sum) else selectLoop rest (mi, ms)

/-- `deviation_map.at(min_deviation_index)` after the selection loop.  The
`.getD []` branch models the (unreachable in the calculator: every entry
list handed over is non-empty) case where the winning index is absent. -/
def selectForUuid (entries : List (ℕ × List ℚ)) : List ℚ :=
  let mi := (selectLoop entries (0, DBLMAX)).1
  ((entries.find? (fun e => e.1 = mi)).map (fun e => e.2)).getD []

/-- `Stat` accumulation (lines 296-306): for every uuid in
`deviation_map_for_objects`, skip empty lists, add every deviation. -/
def accumulateDeviations (m : List (String × List ℚ)) : Stat :=
  m.foldl (fun acc e => if e.2 = [] then acc else acc ++ e.2) []

/-- `MetricsCalculator::calcPredictedPathDeviationMetrics(objects, horizon)`:
record, select per object, accumulate.  The `debug_target_object_` /
`debug_predicted_path_pairs_map` writes (debug visualisation only) are not
modelled. -/
def calcPredictedPathDeviationStat (st : StoreState) (geom : Geom)
    (objects : PredictedObjectsMsg) (horizon : ℚ) : Stat :=
  let devPaths := buildDeviationMap st geom objects.headerStamp horizon objects.objects
  let devObjects := devPaths.map (fun e => (e.1, selectForUuid e.2))
  accumulateDeviations devObjects

/-- `MetricsCalculator::calcPredictedPathDeviationMetrics(objects)`: one
statistic per configured horizon, keyed by the horizon-parameterised
name. -/
def calcPredictedPathDeviationMetrics (st : StoreState) (geom : Geom)
    (params : Parameters) (objects : PredictedObjectsMsg) : MetricStatMap :=
  params.predictionTimeHorizons.map (fun h =>
    (MetricName.predicted_path_deviation h, calcPredictedPathDeviationStat st geom objects h))

/-- `MetricsCalculator::calculate`: empty store short-circuits to "no
result" *before* `getTimeDelay()` can throw; then the target stamp is
`current_stamp_ - time_delay`, the store-wide readiness check gates the
cycle, and the metric switch dispatches on the batch at the target
stamp. -/
def calculate (st : StoreState) (geom : Geom) (params : Parameters)
    (currentStamp : ℚ) (metric : Metric) : Except CalcError (Option MetricStatMap) :=
  if st.objectMap.isEmpty then .ok none
  else
    match getTimeDelay params with
    | .error e => .error e
    | .ok timeDelay =>
      let targetStamp := currentStamp - timeDelay
      if ¬ hasPassedTimeStore st targetStamp then .ok none
      else
        let targetObjects := getObjectsByStamp st targetStamp
        match metric with
        | .lateral_deviation =>
          (calcLateralDeviationMetrics st geom targetObjects).map some
        | .yaw_deviation =>
          (calcYawDeviationMetrics st geom targetObjects).map some
        | .predicted_path_deviation =>
          .ok (some (calcPredictedPathDeviationMetrics st geom params targetObjects))

/-- Per-track loop of `MetricsCalculator::deleteOldObjects`: erase from
the oldest entry while it is strictly older than the cutoff; the loop
`break`s at the first entry at-or-after the cutoff — and erases the whole
track when every entry is stale. -/
def evictTrack (cutoff : ℚ) : Track → Track
  | [] => []
  | e :: rest => if e.1 < cutoff then evictTrack cutoff rest else e :: rest

/-- `MetricsCalculator::deleteOldObjects`: evict every track with cutoff
`stamp - 2 * time_delay` (where `time_delay = getTimeDelay()`, passed here
as a parameter; the empty-horizon throw is modelled on `getTimeDelay`
itself), then purge every uuid whose track became empty from
`object_map_`, `history_path_map_` and `debug_target_object_`. -/
def deleteOldObjects (st : StoreState) (timeDelay : ℚ) (stamp : ℚ) : StoreState :=
  let cutoff := stamp - timeDelay * 2
  let evicted := st.objectMap.map (fun e => (e.1, evictTrack cutoff e.2))
  let emptyKeys := (evicted.filter (fun e => e.2.isEmpty)).map (fun e => e.1)
  { objectMap := evicted.filter (fun e => ¬ e.2.isEmpty)
    historyPathMap := st.historyPathMap.filter (fun e => ¬ emptyKeys.contains e.1)
    debugTargetObject := st.debugTargetObject.filter (fun k => ¬ emptyKeys.contains k) }

/-! ### Path smoother (`MetricsCalculator::averageFilterPath`) -/

/-- Wrapping `size_t` subtraction: `a - b` modulo `2^64` (for `a, b < 2^64`).
`std::max(i - half_window, size_t(0))` in the source is the identity on
this value — the max against zero never clamps an unsigned quantity. -/
def sub64 (a b : ℕ) : ℕ := (a + 2 ^ 64 - b % 2 ^ 64) % 2 ^ 64

/-- Wrapping `size_t` addition. -/
def add64 (a b : ℕ) : ℕ := (a + b) % 2 ^ 64

/-- `size_t` minimum (no wrap involved). -/
def min64 (a b : ℕ) : ℕ := min a b

/-- `path[j].position`, with an irrelevant default for out-of-range `j`
(every access in the loops below is in range). -/
def posAt (path : List Pose) (j : ℕ) : Position :=
  ((path.get? j).map (fun p => p.position)).getD ⟨0, 0, 0⟩

/-- `path.at(i).orientation`. -/
def orientAt (path : List Pose) (i : ℕ) : Orientation :=
  ((path.get? i).map (fun p => p.orientation)).getD (Orientation.quat 0 0 0 1)

/-- Position pass of `averageFilterPath` (lines 407-431): for each index
`i` the inner loop runs `j` from `i - half_window` (computed in `size_t`:
when `i < half_window` this wraps to a huge value and the loop body never
executes) up to `min(i + half_window, path.size() - 1)`; the average of
the visited positions is taken, and when no point was visited
(`valid_points == 0`) the raw position is copied.  The orientation is the
raw pose's orientation as a placeholder. -/
def positionPass (path : List Pose) (halfWindow : ℕ) : List Pose :=
  (List.range path.length).map (fun i =>
    let start := sub64 i halfWindow
    let stop := min64 (add64 i halfWindow) (sub64 path.length 1)
    let window := List.range' start (stop + 1 - start)
    let validPoints := window.length
    let position : Position :=
      if 0 < validPoints then
        { x := (window.map (fun j => (posAt path j).x)).sum / (validPoints : ℚ)
          y := (window.map (fun j => (posAt path j).y)).sum / (validPoints : ℚ)
          z := (window.map (fun j => (posAt path j).z)).sum / (validPoints : ℚ) }
      else posAt path i
    { position := position, orientation := orientAt path i })

/-- `calcDistance2d(p, q) < 0.1`, decided on exact squared distances
(`hypot < 0.1 ↔ dx² + dy² < 0.01` since both sides are non-negative). -/
def distLtTenth (p q : Position) : Bool :=
  decide ((q.x - p.x) ^ 2 + (q.y - p.y) ^ 2 < 1 / 100)

/-- `createQuaternionFromYaw (calcAzimuthAngle p q)`, recorded by its
position deltas. -/
def bearingOf (p q : Position) : Orientation :=
  Orientation.bearing (q.x - p.x) (q.y - p.y)

/-- One body iteration of the orientation pass of `averageFilterPath`
(lines 434-453) at an index `i ≥ 1`, with `prev` the already-finalised
output pose `i - 1`, `p` the pose at `i` and `rest` the poses after it:
if the current pose is within 0.1 of the *previous* pose, copy the
previous (already updated) orientation; otherwise take the bearing to the
next pose, or — at the last pose — again copy the previous
orientation. -/
def orientHead (prev p : Pose) (rest : List Pose) : Pose :=
  { position := p.position
    orientation :=
      if distLtTenth prev.position p.position then prev.orientation
      else
        match rest with
        | [] => prev.orientation
        | q :: _ => bearingOf p.position q.position }

/-- Orientation pass from index 1 onward. -/
def orientStep (prev : Pose) : List Pose → List Pose
  | [] => []
  | p :: rest => orientHead prev p rest :: orientStep (orientHead prev p rest) rest

/-- Index 0 of the orientation pass: it has no predecessor, so no
proximity check happens there; with at least two poses it takes the
bearing to pose 1, and a single pose keeps its placeholder
orientation. -/
def orientFirst (p : Pose) (rest : List Pose) : Pose :=
  { position := p.position
    orientation :=
      match rest with
      | [] => p.orientation
      | q :: _ => bearingOf p.position q.position }

/-- Orientation pass entry point. -/
def orientationPass : List Pose → List Pose
  | [] => []
  | p :: rest => orientFirst p rest :: orientStep (orientFirst p rest) rest

/-- `MetricsCalculator::averageFilterPath`: position pass with
`half_window = window_size / 2`, then the orientation pass over the
position-averaged sequence. -/
def averageFilterPath (path : List Pose) (windowSize : ℕ) : List Pose :=
  orientationPass (positionPass path (windowSize / 2))

/-! ### Spec-side definitions (for refinement comparisons only)

These two definitions follow the *spec's / claims' words*, not the source;
they exist solely to be compared against the source-derived definitions
above. -/

/-- Follows the words of claim C4 / spec §4.3: "for each index i, average
the position of all poses within `[i - windowSize/2, i + windowSize/2]`
clamped to the sequence bounds".  Natural-number subtraction performs the
lower clamp exactly. -/
def specClampedAveragePositions (path : List Pose) (windowSize : ℕ) : List Position :=
  let h := windowSize / 2
  (List.range path.length).map (fun i =>
    let lo := i - h
    let hi := min (i + h) (path.length - 1)
    let window := List.range' lo (hi + 1 - lo)
    { x := (window.map (fun j => (posAt path j).x)).sum / (window.length : ℚ)
      y := (window.map (fun j => (posAt path j).y)).sum / (window.length : ℚ)
      z := (window.map (fun j => (posAt path j).z)).sum / (window.length : ℚ) })

/-- Follows the words of claim C5 for indices after the first, with the
previous *output* pose `prev` at hand: "for every index i except the last:
if the 2-D distance between pose i and pose **i+1** is below the 0.1
threshold, pose i's orientation is copied from pose i-1; otherwise pose
i's orientation is set to the bearing from pose i to pose i+1; and the
last pose copies the orientation of the second-to-last pose." -/
def claimOrientStep (prev : Pose) : List Pose → List Pose
  | [] => []
  | [p] => [{ position := p.position, orientation := prev.orientation }]
  | p :: q :: rest =>
    let o :=
      if distLtTenth p.position q.position then prev.orientation
      else bearingOf p.position q.position
    let p' : Pose := { position := p.position, orientation := o }
    p' :: claimOrientStep p' (q :: rest)

/-- Entry point of the claim-side orientation pass.  The claim leaves
index 0's "copy from pose i-1" case undefined (there is no pose -1);
here index 0 keeps its own orientation in that case.  The comparison
with the source is made at an input whose index 0 does not take that
branch, so this choice is immaterial. -/
def claimOrientPass : List Pose → List Pose
  | [] => []
  | [p] => [p]
  | p :: q :: rest =>
    let o :=
      if distLtTenth p.position q.position then p.orientation
      else bearingOf p.position q.position
    let p' : Pose := { position := p.position, orientation := o }
    p' :: claimOrientStep p' (q :: rest)

/-- The smoother as claim C5 describes it: the source's position pass
followed by the claim-side orientation pass. -/
def claimSmooth (path : List Pose) (windowSize : ℕ) : List Pose :=
  claimOrientPass (positionPass path (windowSize / 2))

/-- Poses on a line: pose `j` sits at `a + j • d` (componentwise), all
with the same raw orientation `q0`. -/
def mkLinearPath (a d : Position) (q0 : Orientation) (n : ℕ) : List Pose :=
  (List.range n).map (fun (j : ℕ) =>
    { position := { x := a.x + (j : ℚ) * d.x, y := a.y + (j : ℚ) * d.y,
                    z := a.z + (j : ℚ) * d.z }
      orientation := q0 })

/-! ### Concrete fixtures used by witnesses and counterexamples -/

/-- An identity quaternion as carried by the input messages. -/
def q0 : Orientation := Orientation.quat 0 0 0 1

def pose0 : Pose := { position := { x := 0, y := 0, z := 0 }, orientation := q0 }

def objA : PredictedObject := { object_id := "a", pose := pose0, predicted_paths := [] }

/-- Trivial instantiations of the external geometry routines (their values
are irrelevant to every claim below). -/
def geom0 : Geom := { latDev := fun _ _ => 0, yawDev := fun _ _ => 0, dist2 := fun _ _ => 0 }

/-- A store holding a single object `"a"` whose track has one entry at
stamp 5. -/
def stOne : StoreState :=
  { objectMap := [("a", [((5 : ℚ), objA)])]
    historyPathMap := [("a", ([pose0], [pose0]))]
    debugTargetObject := [] }

/-- A store whose single track's newest (and only) entry is stale for
`stamp = 10`, `time_delay = 1` (cutoff 8). -/
def stAllStale : StoreState :=
  { objectMap := [("a", [((0 : ℚ), objA)])]
    historyPathMap := [("a", ([pose0], [pose0]))]
    debugTargetObject := [] }

/-- The empty store. -/
def stEmpty : StoreState := { objectMap := [], historyPathMap := [], debugTargetObject := [] }

/-- Three collinear, evenly spaced poses at x = 0, 3, 6. -/
def path3 : List Pose := mkLinearPath ⟨0, 0, 0⟩ ⟨3, 0, 0⟩ q0 3

/-- Three poses where pose 1 and pose 2 are within 0.1 of each other but
pose 0 and pose 1 are far apart. -/
def cpath : List Pose :=
  [ { position := { x := 0, y := 0, z := 0 }, orientation := q0 }
  , { position := { x := 10, y := 0, z := 0 }, orientation := q0 }
  , { position := { x := 10, y := 1 / 20, z := 0 }, orientation := q0 } ]

/-! ## Helper lemmas -/

/-- On a track with strictly increasing stamps, taking the head of the
`std::lower_bound` suffix and testing it for exact equality with `c` is
the same as an exact-match search for stamp `c`. -/
theorem lowerBound_exact_eq_find? (c : ℚ) :
    ∀ (track : Track), track.Pairwise (fun a b => a.1 < b.1) →
      (match track.dropWhile (fun p => p.1 < c) with
        | [] => (none : Option PredictedObject)
        | p :: _ => if p.1 = c then some p.2 else none)
      = (track.find? (fun p => p.1 = c)).map (fun p => p.2) := by
  intro track
  induction track with
  | nil => intro _; rfl
  | cons a rest ih =>
    intro hs
    by_cases hac : a.1 < c
    · have hne : ¬ (a.1 = c) := ne_of_lt hac
      rw [List.dropWhile_cons, if_pos (by simpa using hac),
        List.find?_cons_of_neg _ (by simpa using hne)]
      exact ih hs.of_cons
    · rw [List.dropWhile_cons, if_neg (by simpa using hac)]
      by_cases heq : a.1 = c
      · rw [List.find?_cons_of_pos _ (by simpa using heq)]
        show (if a.1 = c then some a.2 else none) = _
        rw [if_pos heq]
        rfl
      · have hgt : c < a.1 := lt_of_le_of_ne (le_of_not_lt hac) (fun h => heq h.symm)
        have hnone : rest.find? (fun p => decide (p.1 = c)) = none := by
          rw [List.find?_eq_none]
          intro x hx
          have hax : a.1 < x.1 := List.rel_of_pairwise_cons hs hx
          simp only [decide_eq_true_eq]
          exact ne_of_gt (lt_trans hgt hax)
        rw [List.find?_cons_of_neg _ (by simpa using heq), hnone]
        show (if a.1 = c then some a.2 else none) = _
        rw [if_neg heq]
        rfl

/-- A key that occurs in an association list with pairwise-distinct keys
is found with exactly its own entry. -/
theorem find?_key_of_mem_nodup {α : Type} (e : ℕ × α) :
    ∀ (l : List (ℕ × α)), (l.map (fun p => p.1)).Nodup → e ∈ l →
      l.find? (fun p => p.1 = e.1) = some e := by
  intro l
  induction l with
  | nil => intro _ he; cases he
  | cons a rest ih =>
    intro hnd he
    rcases List.mem_cons.mp he with rfl | hmem
    · simp
    · have hane : ¬ (a.1 = e.1) := by
        intro h
        refine (List.nodup_cons.mp hnd).1 ?_
        show a.1 ∈ _
        rw [h]
        exact List.mem_map_of_mem (fun p => p.1) hmem
      rw [List.find?_cons_of_neg _ (by simpa using hane)]
      exact ih (List.nodup_cons.mp hnd).2 hmem

/-- `evictTrack` removes exactly the maximal prefix of entries strictly
older than the cutoff. -/
theorem evictTrack_eq_dropWhile (cutoff : ℚ) :
    ∀ (track : Track), evictTrack cutoff track = track.dropWhile (fun p => p.1 < cutoff) := by
  intro track
  induction track with
  | nil => rfl
  | cons a rest ih =>
    by_cases h : a.1 < cutoff
    · simp [evictTrack, List.dropWhile_cons, h, ih]
    · simp [evictTrack, List.dropWhile_cons, h]

/-! ## Claim theorems -/

/-- **C1, counterexample.**  The claim says `getObjectByStamp` returns a
snapshot only when the key's track has an entry at *exactly the requested
timestamp* and never returns a snapshot stored at a different timestamp.
In the store `stOne` the track of `"a"` has its single entry at stamp 5
and no entry at the requested stamp 7, yet the lookup resolves the
store-wide closest stamp (5) and returns the snapshot stored there. -/
theorem c1_counterexample :
    stOne.objectMap = [("a", [((5 : ℚ), objA)])]
    ∧ getClosestStamp stOne 7 = 5
    ∧ getObjectByStamp stOne "a" 7 = .ok (some objA)
    ∧ (5 : ℚ) ≠ 7 := by
  refine ⟨rfl, ?_, ?_, by norm_num⟩
  · norm_num [getClosestStamp, closestStep, stOne, I64MAX, List.dropWhile, List.takeWhile]
  · norm_num [getObjectByStamp, getClosestStamp, closestStep, stOne, assocLookup, I64MAX,
      List.find?, List.dropWhile, List.takeWhile]

/-- **C2, counterexample.**  The claim says eviction never removes a
non-empty track's newest entry and never empties a track.  With
`time_delay = 1` and `stamp = 10` (cutoff 8) the single — hence newest —
entry of `"a"`'s track (stamp 0) is strictly older than the cutoff, the
erase loop never hits an in-window entry, the track is emptied and the
key is purged. -/
theorem c2_counterexample :
    stAllStale.objectMap = [("a", [((0 : ℚ), objA)])]
    ∧ (deleteOldObjects stAllStale 1 10).objectMap = [] := by
  exact ⟨rfl, by norm_num [deleteOldObjects, evictTrack, stAllStale]⟩

/-- **C3, counterexample.**  Two hypotheses (indices 0 and 1) of one
object record distance lists `[1, 3]` and `[2, 2]`, both summing to 4.
The claim says the tie is broken in favour of the smallest hypothesis
index, i.e. the retained distances must be `[1, 3]`.  The selection loop,
however, keeps whichever tied entry the `unordered_map` iteration visits
first.  libstdc++ (the standard library the package is built with)
prepends each new key of the inner `unordered_map<size_t, …>` to its
bucket-list head, so after inserting key 0 and then key 1 iteration
visits key 1 first — the order used here — and the retained distances
are `[2, 2]`, not `[1, 3]`. -/
theorem c3_counterexample :
    selectLoop [(1, [2, 2]), (0, [1, 3])] (0, DBLMAX) = (1, 4)
    ∧ selectForUuid [(1, [2, 2]), (0, [1, 3])] = [2, 2]
    ∧ ([2, 2] : List ℚ) ≠ [1, 3] := by
  have h : selectLoop [((1 : ℕ), [(2 : ℚ), 2]), (0, [1, 3])] (0, DBLMAX) = (1, 4) := by
    norm_num [selectLoop, DBLMAX]
    intro h
    exact absurd h (by simp)
  refine ⟨h, ?_, by simp⟩
  rw [selectForUuid, h]
  norm_num [List.find?]

/-- **C4, code bug.**  The claim (and the `std::max(i - half_window, 0)`
clamp the source visibly intends) requires every index — including the
first `half_window` ones — to be averaged over its clamped window.  On
the path with x-positions `[0, 3, 6]` and window size 2 the clamped
average at index 0 is `(0 + 3) / 2 = 3/2`, but in the code
`i - half_window` underflows `size_t` for `i = 0`, the averaging loop
body never runs, and the `valid_points == 0` fallback copies the raw
position 0 unchanged. -/
theorem c4_code_bug :
    path3.map (fun p => p.position.x) = [0, 3, 6]
    ∧ (averageFilterPath path3 2).map (fun p => p.position.x) = [0, 3, 9 / 2]
    ∧ (specClampedAveragePositions path3 2).map (fun p => p.x) = [3 / 2, 3, 9 / 2] := by
  refine ⟨by norm_num [path3, mkLinearPath, List.range_succ], ?_, ?_⟩
  · norm_num [averageFilterPath, positionPass, orientationPass, orientStep, orientHead,
      orientFirst, path3, mkLinearPath, posAt, orientAt, sub64, add64, min64, distLtTenth,
      bearingOf, List.range_succ, List.range'_succ, q0]
  · norm_num [specClampedAveragePositions, path3, mkLinearPath, posAt, List.range_succ,
      List.range'_succ, q0]

/-- **C5, counterexample.**  On `cpath` (positions `(0,0)`, `(10,0)`,
`(10, 0.05)`, window size 1 so the position pass is the identity) the
claim's rule looks at the distance from pose 1 to pose 2 (`0.05 < 0.1`)
and therefore copies pose 0's orientation — the bearing `(10, 0)`, yaw 0
— onto pose 1.  The code instead checks the distance from pose 0 to pose
1 (`10 ≥ 0.1`) and assigns pose 1 the bearing towards pose 2, `(0, 1/20)`,
yaw π/2: a genuinely different heading. -/
theorem c5_counterexample :
    ((averageFilterPath cpath 1).get? 1).map (fun p => p.orientation)
        = some (Orientation.bearing 0 (1 / 20))
    ∧ ((claimSmooth cpath 1).get? 1).map (fun p => p.orientation)
        = some (Orientation.bearing 10 0)
    ∧ Orientation.bearing 0 (1 / 20) ≠ Orientation.bearing 10 0 := by
  refine ⟨?_, ?_, by simp⟩
  · norm_num [averageFilterPath, positionPass, orientationPass, orientStep, orientHead,
      orientFirst, cpath, posAt, orientAt, sub64, add64, min64, distLtTenth, bearingOf,
      List.range_succ, List.range'_succ, q0]
  · norm_num [claimSmooth, positionPass, claimOrientPass, claimOrientStep, cpath,
      posAt, orientAt, sub64, add64, min64, distLtTenth, bearingOf, List.range_succ,
      List.range'_succ, q0]

/-- **C6, counterexample.**  The claim says an empty configured horizon
list makes `calculate` raise the fatal configuration error *for every
store state, including an empty store*.  On the empty store `calculate`
returns "no result" (`.ok none`) before `getTimeDelay` — the only place
the error is thrown — is ever called. -/
theorem c6_counterexample :
    calculate stEmpty geom0
        { predictionTimeHorizons := [], smoothingWindowSize := 5 } 0 Metric.lateral_deviation
      = .ok none := by
  norm_num [calculate, stEmpty]

/-- **C7, counterexample.**  The claim says a metric whose statistic
accumulated no data is omitted from the returned mapping.  For a batch
with no objects the lateral-deviation loop contributes nothing, yet the
returned mapping still carries `"lateral_deviation"`, with the
zero-count statistic. -/
theorem c7_counterexample :
    calcLateralDeviationMetrics stOne geom0 { headerStamp := 0, objects := [] }
      = .ok [(MetricName.lateral_deviation, ([] : Stat))] := by
  rw [calcLateralDeviationMetrics]
  norm_num [lateralLoop, Except.map]

/-- **C8, counterexample.**  The claim says lookups on a key that is not
in the store return a local absent/false value and never raise.
`hasPassedTime(uuid, ·)` does return false, but `getObjectByStamp` calls
`object_map_.at(uuid)`, which throws `std::out_of_range` for the unknown
key `"b"`. -/
theorem c8_counterexample :
    assocLookup stOne.objectMap "b" = none
    ∧ getObjectByStamp stOne "b" 0 = .error .outOfRange := by
  have hb : assocLookup stOne.objectMap "b" = none := by decide
  exact ⟨hb, by rw [getObjectByStamp, hb]⟩

/-- **C9, counterexample.**  The claim says the smoother is the identity
on every collinear, evenly spaced pose sequence at *every* index.  On
x-positions `[0, 3, 6]` with window size 2 the final index averages the
shortened window `{3, 6}` and moves to `9/2 ≠ 6`. -/
theorem c9_counterexample :
    path3.map (fun p => p.position.x) = [0, 3, 6]
    ∧ (averageFilterPath path3 2).map (fun p => p.position.x) = [0, 3, 9 / 2]
    ∧ ((9 : ℚ) / 2) ≠ 6 := by
  refine ⟨by norm_num [path3, mkLinearPath, List.range_succ], ?_, by norm_num⟩
  norm_num [averageFilterPath, positionPass, orientationPass, orientStep, orientHead,
    orientFirst, path3, mkLinearPath, posAt, orientAt, sub64, add64, min64, distLtTenth,
    bearingOf, List.range_succ, List.range'_succ, q0]

/-- **C1, amended.**  For every key whose (stamp-sorted) track is in the
store, `getObjectByStamp` is an *exact-match* lookup at the store-wide
*closest* stamp to the requested timestamp: it returns exactly the
snapshot stored at `getClosestStamp st t` when the key's track has an
entry there — a stamp that may differ from the requested one — and
not-found otherwise. -/
theorem c1_amended (st : StoreState) (uuid : String) (t : ℚ) (track : Track)
    (hlk : assocLookup st.objectMap uuid = some track)
    (hs : track.Pairwise (fun a b => a.1 < b.1)) :
    getObjectByStamp st uuid t
      = .ok ((track.find? (fun p => p.1 = getClosestStamp st t)).map (fun p => p.2)) := by
  have h := lowerBound_exact_eq_find? (getClosestStamp st t) track hs
  simp only [getObjectByStamp, hlk]
  rw [← h]
  cases hdw : track.dropWhile (fun p => decide (p.1 < getClosestStamp st t)) with
  | nil => rfl
  | cons p rest =>
    by_cases hpc : p.1 = getClosestStamp st t
    · simp only [if_pos hpc]
    · simp only [if_neg hpc]

/-- **C1, witness.** -/
theorem c1_witness :
    getObjectByStamp stOne "a" 7
      = .ok (([((5 : ℚ), objA)].find? (fun p => p.1 = getClosestStamp stOne 7)).map
          (fun p => p.2)) :=
  c1_amended stOne "a" 7 [((5 : ℚ), objA)] (by decide) (by simp)

/-- **C2, amended.**  Eviction removes from every track exactly the
maximal prefix of entries strictly older than the cutoff
`stamp - 2 * time_delay` (stopping at the first in-window entry), and
then purges every key whose track became empty.  On a stamp-sorted track
the newest entry survives *iff* it is not strictly older than the cutoff;
in particular a track all of whose entries are stale — its newest
included — is emptied and its key dropped, which is exactly where the
original claim fails. -/
theorem c2_amended (st : StoreState) (timeDelay stamp : ℚ) :
    (deleteOldObjects st timeDelay stamp).objectMap
      = ((st.objectMap.map (fun e =>
            (e.1, e.2.dropWhile (fun p => p.1 < stamp - timeDelay * 2)))).filter
          (fun e => ¬ e.2.isEmpty))
    ∧ ∀ (track : Track) (last : ℚ × PredictedObject),
        track.Pairwise (fun a b => a.1 < b.1) → track.getLast? = some last →
        (evictTrack (stamp - timeDelay * 2) track ≠ [] ↔ stamp - timeDelay * 2 ≤ last.1) := by
  constructor
  · rw [deleteOldObjects]
    simp only [evictTrack_eq_dropWhile]
  · intro track
    induction track with
    | nil => intro last _ hlast; cases hlast
    | cons a rest ih =>
      intro last hs hlast
      cases rest with
      | nil =>
        have ha : a = last := by simpa using hlast
        subst ha
        by_cases h : a.1 < stamp - timeDelay * 2
        · constructor
          · intro hcon
            exact absurd (show evictTrack (stamp - timeDelay * 2) [a] = [] by
              simp [evictTrack, h]) hcon
          · intro hle
            exact absurd h (not_lt.mpr hle)
        · constructor
          · intro _
            exact le_of_not_lt h
          · intro _
            simp [evictTrack, h]
      | cons b rest2 =>
        have hlast2 : (b :: rest2).getLast? = some last := by
          rwa [List.getLast?_cons_cons] at hlast
        by_cases h : a.1 < stamp - timeDelay * 2
        · have hstep : evictTrack (stamp - timeDelay * 2) (a :: b :: rest2)
              = evictTrack (stamp - timeDelay * 2) (b :: rest2) := by
            simp [evictTrack, h]
          rw [hstep]
          exact ih last hs.of_cons hlast2
        · have hmem : last ∈ b :: rest2 := by
            rcases List.mem_getLast?_eq_getLast (Option.mem_def.mpr hlast2) with ⟨hne, hget⟩
            rw [hget]
            exact List.getLast_mem hne
          have halast : a.1 < last.1 := List.rel_of_pairwise_cons hs hmem
          have hca : stamp - timeDelay * 2 ≤ a.1 := le_of_not_lt h
          have hstep : evictTrack (stamp - timeDelay * 2) (a :: b :: rest2)
              = a :: b :: rest2 := by
            simp [evictTrack, h]
          rw [hstep]
          constructor
          · intro _
            exact le_of_lt (lt_of_le_of_lt hca halast)
          · intro _ hcon
            cases hcon

/-- **C2, witness.** -/
theorem c2_witness :
    (deleteOldObjects stAllStale 1 10).objectMap
      = ((stAllStale.objectMap.map (fun e =>
            (e.1, e.2.dropWhile (fun p => p.1 < 10 - 1 * 2)))).filter
          (fun e => ¬ e.2.isEmpty))
    ∧ (evictTrack (10 - 1 * 2) [((0 : ℚ), objA)] ≠ [] ↔ (10 : ℚ) - 1 * 2 ≤ (0 : ℚ)) :=
  ⟨(c2_amended stAllStale 1 10).1,
    (c2_amended stAllStale 1 10).2 [((0 : ℚ), objA)] ((0 : ℚ), objA) (by simp) rfl⟩

/-- **C6, amended.**  With an empty configured horizon list, `calculate`
raises the fatal configuration error whenever the store is non-empty, but
on an *empty* store it returns the absent result (`none`) first — the
empty-store guard runs before `getTimeDelay` is consulted. -/
theorem c6_amended (st : StoreState) (geom : Geom) (params : Parameters)
    (currentStamp : ℚ) (metric : Metric)
    (h : params.predictionTimeHorizons = []) :
    calculate st geom params currentStamp metric
      = if st.objectMap.isEmpty then .ok none else .error .emptyHorizons := by
  by_cases he : st.objectMap.isEmpty
  · simp [calculate, he]
  · simp [calculate, he, getTimeDelay, h]

/-- **C6, witness.** -/
theorem c6_witness :
    calculate stOne geom0 { predictionTimeHorizons := [], smoothingWindowSize := 5 } 0
        Metric.yaw_deviation
      = if stOne.objectMap.isEmpty then .ok none else .error .emptyHorizons :=
  c6_amended stOne geom0 _ 0 Metric.yaw_deviation rfl

/-- **C8, amended.**  For a key not present in the store,
`hasPassedTime(uuid, ·)` indeed returns a local `false` without failing,
but `getObjectByStamp` raises the out-of-range exception
(`object_map_.at(uuid)`) instead of returning a local not-found value. -/
theorem c8_amended (st : StoreState) (uuid : String) (stamp : ℚ)
    (h : assocLookup st.objectMap uuid = none) :
    hasPassedTimeKey st uuid stamp = false
    ∧ getObjectByStamp st uuid stamp = .error .outOfRange := by
  constructor
  · rw [hasPassedTimeKey, h]
  · rw [getObjectByStamp, h]

/-- **C8, witness.** -/
theorem c8_witness :
    hasPassedTimeKey stOne "b" 3 = false
    ∧ getObjectByStamp stOne "b" 3 = .error .outOfRange :=
  c8_amended stOne "b" 3 (by decide)

/-- **C7, amended.**  The calculator never omits a metric key from the
mapping it returns: the lateral-deviation map always carries
`"lateral_deviation"` (whatever statistic the loop accumulated, including
the zero-count one) unless the lookup exception escapes, and the
predicted-path map carries exactly one key per configured horizon,
contributions or not.  Omission of empty statistics is not performed at
this layer. -/
theorem c7_amended (st : StoreState) (geom : Geom) (params : Parameters)
    (objects : PredictedObjectsMsg) :
    ((∃ s, calcLateralDeviationMetrics st geom objects = .ok [(MetricName.lateral_deviation, s)])
        ∨ ∃ e, calcLateralDeviationMetrics st geom objects = .error e)
    ∧ (calcPredictedPathDeviationMetrics st geom params objects).map (fun e => e.1)
        = params.predictionTimeHorizons.map MetricName.predicted_path_deviation := by
  constructor
  · cases h : lateralLoop st geom objects.headerStamp objects.objects [] with
    | ok s =>
      exact Or.inl ⟨s, by rw [calcLateralDeviationMetrics, h]; rfl⟩
    | error e =>
      exact Or.inr ⟨e, by rw [calcLateralDeviationMetrics, h]; rfl⟩
  · rw [calcPredictedPathDeviationMetrics, List.map_map]
    rfl

/-- **C10, confirmed.**  The batch returned by `getObjectsByStamp` carries
the original *query* timestamp as its header stamp while its objects are
exactly the snapshots stored at the resolved closest stamp (one per key
whose sorted track has an entry exactly there), and the lateral-deviation
metric runs its per-key `hasPassedTime` guard against that header — i.e.
against the query timestamp, not the timestamp the snapshots were stored
at. -/
theorem c10_confirmed (st : StoreState) (geom : Geom) (t : ℚ)
    (hs : ∀ e ∈ st.objectMap, List.Pairwise (fun a b => a.1 < b.1) e.2) :
    (getObjectsByStamp st t).headerStamp = t
    ∧ (getObjectsByStamp st t).objects
        = st.objectMap.filterMap (fun e =>
            (e.2.find? (fun p => p.1 = getClosestStamp st t)).map (fun p => p.2))
    ∧ calcLateralDeviationMetrics st geom (getObjectsByStamp st t)
        = (lateralLoop st geom t (getObjectsByStamp st t).objects []).map
            (fun stat => [(MetricName.lateral_deviation, stat)]) := by
  refine ⟨rfl, ?_, rfl⟩
  simp only [getObjectsByStamp]
  exact List.filterMap_congr (fun e he =>
    lowerBound_exact_eq_find? (getClosestStamp st t) e.2 (hs e he))

/-- **C10, witness.** -/
theorem c10_witness :
    (getObjectsByStamp stOne 7).headerStamp = 7
    ∧ (getObjectsByStamp stOne 7).objects
        = stOne.objectMap.filterMap (fun e =>
            (e.2.find? (fun p => p.1 = getClosestStamp stOne 7)).map (fun p => p.2))
    ∧ calcLateralDeviationMetrics stOne geom0 (getObjectsByStamp stOne 7)
        = (lateralLoop stOne geom0 7 (getObjectsByStamp stOne 7).objects []).map
            (fun stat => [(MetricName.lateral_deviation, stat)]) :=
  c10_confirmed stOne geom0 7 (by
    intro e he
    simp only [stOne, List.mem_singleton] at he
    subst he
    simp)

/-- Invariant of the selection loop of
`calcPredictedPathDeviationMetrics`: the loop either keeps the incoming
accumulator — and then every non-empty entry's sum is at least the
incoming minimum — or it returns a non-empty entry of the list whose sum
is strictly below the incoming minimum and minimal among all non-empty
entries. -/
theorem selectLoop_spec :
    ∀ (entries : List (ℕ × List ℚ)) (mi : ℕ) (ms : ℚ),
      (selectLoop entries (mi, ms) = (mi, ms)
          ∧ ∀ e ∈ entries, e.2 ≠ [] → ms ≤ e.2.sum)
      ∨ (∃ e ∈ entries, e.2 ≠ [] ∧ selectLoop entries (mi, ms) = (e.1, e.2.sum)
          ∧ e.2.sum < ms ∧ ∀ e' ∈ entries, e'.2 ≠ [] → e.2.sum ≤ e'.2.sum) := by
  intro entries
  induction entries with
  | nil =>
    intro mi ms
    exact Or.inl ⟨rfl, by intro e he; cases he⟩
  | cons a rest ih =>
    intro mi ms
    obtain ⟨i, ds⟩ := a
    by_cases hds : ds = []
    · have hsl : selectLoop ((i, ds) :: rest) (mi, ms) = selectLoop rest (mi, ms) := by
        simp [selectLoop, hds]
      rcases ih mi ms with ⟨heq, hall⟩ | ⟨e, he, hne, heq, hlt, hmin⟩
      · refine Or.inl ⟨by rw [hsl, heq], ?_⟩
        intro e' he' hne'
        rcases List.mem_cons.mp he' with rfl | hm
        · exact absurd hds hne'
        · exact hall e' hm hne'
      · refine Or.inr ⟨e, List.mem_cons_of_mem _ he, hne, by rw [hsl, heq], hlt, ?_⟩
        intro e' he' hne'
        rcases List.mem_cons.mp he' with rfl | hm
        · exact absurd hds hne'
        · exact hmin e' hm hne'
    · by_cases hlt0 : ds.sum < ms
      · have hsl : selectLoop ((i, ds) :: rest) (mi, ms) = selectLoop rest (i, ds.sum) := by
          simp [selectLoop, hds, hlt0]
        rcases ih i ds.sum with ⟨heq, hall⟩ | ⟨e, he, hne, heq, hlt, hmin⟩
        · refine Or.inr ⟨(i, ds), List.mem_cons_self _ _, hds, by rw [hsl, heq], hlt0, ?_⟩
          intro e' he' hne'
          rcases List.mem_cons.mp he' with rfl | hm
          · exact le_refl _
          · exact hall e' hm hne'
        · refine Or.inr ⟨e, List.mem_cons_of_mem _ he, hne, by rw [hsl, heq],
            lt_trans hlt hlt0, ?_⟩
          intro e' he' hne'
          rcases List.mem_cons.mp he' with rfl | hm
          · exact le_of_lt hlt
          · exact hmin e' hm hne'
      · have hsl : selectLoop ((i, ds) :: rest) (mi, ms) = selectLoop rest (mi, ms) := by
          simp [selectLoop, hds, hlt0]
        rcases ih mi ms with ⟨heq, hall⟩ | ⟨e, he, hne, heq, hlt, hmin⟩
        · refine Or.inl ⟨by rw [hsl, heq], ?_⟩
          intro e' he' hne'
          rcases List.mem_cons.mp he' with rfl | hm
          · exact le_of_not_lt hlt0
          · exact hall e' hm hne'
        · refine Or.inr ⟨e, List.mem_cons_of_mem _ he, hne, by rw [hsl, heq], hlt, ?_⟩
          intro e' he' hne'
          rcases List.mem_cons.mp he' with rfl | hm
          · exact le_of_lt (lt_of_lt_of_le hlt (le_of_not_lt hlt0))
          · exact hmin e' hm hne'

/-- **C3, amended.**  For the recorded per-hypothesis distance lists of
one object — pairwise-distinct hypothesis indices, at least one hypothesis
with a recorded distance (every realistic sum is far below `DBL_MAX`) —
the selection retains *exactly one hypothesis' recorded list, verbatim*
(never a mix, not normalised), and that hypothesis' sum is minimal among
all hypotheses that recorded at least one distance; an empty-recording
hypothesis is never retained.  Which tied minimum wins depends on the
entry order (the unordered container's iteration order), not on the
index. -/
theorem c3_amended (entries : List (ℕ × List ℚ))
    (hnd : (entries.map (fun p => p.1)).Nodup)
    (hex : ∃ e0 ∈ entries, e0.2 ≠ [] ∧ e0.2.sum < DBLMAX) :
    ∃ e ∈ entries, e.2 ≠ []
      ∧ entries.find? (fun p => p.1 = (selectLoop entries (0, DBLMAX)).1) = some e
      ∧ selectForUuid entries = e.2
      ∧ ∀ e' ∈ entries, e'.2 ≠ [] → e.2.sum ≤ e'.2.sum := by
  obtain ⟨e0, he0, hne0, hslt0⟩ := hex
  rcases selectLoop_spec entries 0 DBLMAX with ⟨_, hall⟩ | ⟨e, he, hne, heq, _, hmin⟩
  · exact absurd (hall e0 he0 hne0) (not_le.mpr hslt0)
  · have h1 : (selectLoop entries (0, DBLMAX)).1 = e.1 := by rw [heq]
    have hfind : entries.find? (fun p => p.1 = e.1) = some e :=
      find?_key_of_mem_nodup e entries hnd he
    refine ⟨e, he, hne, ?_, ?_, hmin⟩
    · simp only [h1]
      exact hfind
    · simp only [selectForUuid, h1, hfind]
      rfl

/-- **C3, witness.** -/
theorem c3_witness :
    ∃ e ∈ [((0 : ℕ), [(1 : ℚ)]), (1, [2, 3])], e.2 ≠ []
      ∧ [((0 : ℕ), [(1 : ℚ)]), (1, [2, 3])].find?
          (fun p => p.1 = (selectLoop [((0 : ℕ), [(1 : ℚ)]), (1, [2, 3])] (0, DBLMAX)).1)
          = some e
      ∧ selectForUuid [((0 : ℕ), [(1 : ℚ)]), (1, [2, 3])] = e.2
      ∧ ∀ e' ∈ [((0 : ℕ), [(1 : ℚ)]), (1, [2, 3])], e'.2 ≠ [] → e.2.sum ≤ e'.2.sum :=
  c3_amended _ (by simp) ⟨(0, [1]), by simp, by simp, by norm_num [DBLMAX]⟩

/-- Index-wise behaviour of `orientStep` (the orientation pass from index
1 of the full sequence onward): position preserved; orientation copied
from the previous *output* pose when the current pose is within 0.1 of
the previous pose, otherwise the bearing to the next pose, and the
previous output orientation again at the last pose. -/
theorem orientStep_get? :
    ∀ (l : List Pose) (prev : Pose) (j : ℕ), j < l.length →
      (orientStep prev l).get? j = some
        { position := posAt l j
          orientation :=
            if distLtTenth (if j = 0 then prev.position else posAt l (j - 1)) (posAt l j) then
              (if j = 0 then prev.orientation else orientAt (orientStep prev l) (j - 1))
            else if j + 1 < l.length then bearingOf (posAt l j) (posAt l (j + 1))
            else (if j = 0 then prev.orientation else orientAt (orientStep prev l) (j - 1)) } := by
  intro l
  induction l with
  | nil => intro prev j hj; simp at hj
  | cons p rest ih =>
    intro prev j hj
    cases j with
    | zero =>
      show some (orientHead prev p rest) = _
      rw [orientHead.eq_def]
      cases rest with
      | nil => simp [posAt]
      | cons q rest2 => simp [posAt, bearingOf, Nat.succ_lt_succ_iff]
    | succ k =>
      have hk : k < rest.length := Nat.succ_lt_succ_iff.mp (by simpa using hj)
      show (orientStep (orientHead prev p rest) rest).get? k = _
      rw [ih (orientHead prev p rest) k hk]
      congr 1
      cases k with
      | zero =>
        simp only [if_pos rfl, Nat.zero_add]
        cases rest with
        | nil => simp at hk
        | cons q rest2 =>
          simp [posAt, orientAt, orientHead, orientStep, Nat.succ_lt_succ_iff]
      | succ m =>
        have hm0 : (m + 1 : ℕ) ≠ 0 := by omega
        have hm1 : (m + 2 : ℕ) ≠ 0 := by omega
        simp only [if_neg hm0, if_neg hm1]
        cases rest with
        | nil => simp at hk
        | cons q rest2 =>
          simp [posAt, orientAt, orientStep, Nat.succ_lt_succ_iff]

/-- **C5, amended.**  In the orientation pass over the position-averaged
sequence `ps`: index 0 is never proximity-checked — with at least two
poses it always gets the bearing towards pose 1; every index `i ≥ 1`
copies the already-updated orientation of pose `i - 1` when the 2-D
distance between pose `i - 1` and pose `i` (the *previous* pose, not
pose `i + 1` as the claim stated) is below 0.1, otherwise gets the
bearing from pose `i` to pose `i + 1` when `i` is not last, and the last
pose copies the orientation of the second-to-last output pose.
Positions are untouched. -/
theorem c5_amended (ps : List Pose) (i : ℕ) (hi : i < ps.length) :
    (orientationPass ps).get? i = some
      { position := posAt ps i
        orientation :=
          if i = 0 then
            (if 1 < ps.length then bearingOf (posAt ps 0) (posAt ps 1) else orientAt ps 0)
          else
            if distLtTenth (posAt ps (i - 1)) (posAt ps i)
            then orientAt (orientationPass ps) (i - 1)
            else if i + 1 < ps.length then bearingOf (posAt ps i) (posAt ps (i + 1))
            else orientAt (orientationPass ps) (i - 1) } := by
  cases ps with
  | nil => simp at hi
  | cons p rest =>
    cases i with
    | zero =>
      show some (orientFirst p rest) = _
      rw [orientFirst.eq_def]
      cases rest with
      | nil => simp [posAt, orientAt]
      | cons q rest2 => simp [posAt, bearingOf, Nat.succ_lt_succ_iff]
    | succ k =>
      have hk : k < rest.length := Nat.succ_lt_succ_iff.mp (by simpa using hi)
      show (orientStep (orientFirst p rest) rest).get? k = _
      rw [orientStep_get? rest (orientFirst p rest) k hk]
      congr 1
      cases k with
      | zero =>
        cases rest with
        | nil => simp at hk
        | cons q rest2 =>
          simp [posAt, orientAt, orientFirst, orientStep, orientationPass,
            Nat.succ_lt_succ_iff]
      | succ m =>
        have hm0 : (m + 1 : ℕ) ≠ 0 := by omega
        have hm1 : (m + 2 : ℕ) ≠ 0 := by omega
        simp only [if_neg hm0, if_neg hm1]
        cases rest with
        | nil => simp at hk
        | cons q rest2 =>
          simp [posAt, orientAt, orientStep, orientationPass, Nat.succ_lt_succ_iff]

/-- **C5, witness.** -/
theorem c5_witness :
    (orientationPass cpath).get? 1 = some
      { position := posAt cpath 1
        orientation :=
          if (1 : ℕ) = 0 then
            (if 1 < cpath.length then bearingOf (posAt cpath 0) (posAt cpath 1)
             else orientAt cpath 0)
          else
            if distLtTenth (posAt cpath 0) (posAt cpath 1)
            then orientAt (orientationPass cpath) 0
            else if 1 + 1 < cpath.length then bearingOf (posAt cpath 1) (posAt cpath (1 + 1))
            else orientAt (orientationPass cpath) 0 } :=
  c5_amended cpath 1 (by simp [cpath])

/-- The orientation pass never moves a pose's position (tail loop). -/
theorem orientStep_position :
    ∀ (l : List Pose) (prev : Pose) (j : ℕ),
      ((orientStep prev l).get? j).map (fun p => p.position)
        = (l.get? j).map (fun p => p.position) := by
  intro l
  induction l with
  | nil => intro prev j; rfl
  | cons p rest ih =>
    intro prev j
    cases j with
    | zero => rfl
    | succ k => exact ih (orientHead prev p rest) k

/-- The orientation pass never moves a pose's position. -/
theorem orientationPass_position (l : List Pose) (j : ℕ) :
    ((orientationPass l).get? j).map (fun p => p.position)
      = (l.get? j).map (fun p => p.position) := by
  cases l with
  | nil => rfl
  | cons p rest =>
    cases j with
    | zero => rfl
    | succ k => exact orientStep_position rest (orientFirst p rest) k

/-- Gauss sum over a contiguous index window, doubled to stay
division-free. -/
theorem sum_range'_cast_mul_two :
    ∀ (m s : ℕ), (((List.range' s m).map (fun (j : ℕ) => (j : ℚ))).sum) * 2
      = (m : ℚ) * (2 * s + m - 1) := by
  intro m
  induction m with
  | zero => intro s; simp
  | succ k ih =>
    intro s
    rw [List.range'_succ]
    simp only [List.map_cons, List.sum_cons]
    rw [add_mul, ih (s + 1)]
    push_cast
    ring

/-- Sum of an affine function of the index over a contiguous window. -/
theorem sum_range'_affine (A B : ℚ) :
    ∀ (m s : ℕ), ((List.range' s m).map (fun (j : ℕ) => A + (j : ℚ) * B)).sum
      = (m : ℚ) * A + (((List.range' s m).map (fun (j : ℕ) => (j : ℚ))).sum) * B := by
  intro m
  induction m with
  | zero => intro s; simp
  | succ k ih =>
    intro s
    rw [List.range'_succ]
    simp only [List.map_cons, List.sum_cons]
    rw [ih (s + 1)]
    push_cast
    ring

/-- For an index in the first `half_window` positions, `i - half_window`
wraps around `2^64`, the window is empty and the position pass copies the
raw pose unchanged. -/
theorem positionPass_get?_underflow (path : List Pose) (h i : ℕ)
    (hi : i < path.length) (hih : i < h) (hh : h ≤ 2 ^ 32) (hn : path.length ≤ 2 ^ 32) :
    (positionPass path h).get? i
      = some { position := posAt path i, orientation := orientAt path i } := by
  have hwin : min64 (add64 i h) (sub64 path.length 1) + 1 - sub64 i h = 0 := by
    unfold sub64 add64 min64
    omega
  rw [positionPass, List.get?_map, List.get?_range hi]
  simp only [Option.map_some']
  rw [hwin]
  simp

/-- For an index whose window fits entirely inside the sequence, the
position pass averages over the full symmetric window
`[i - half_window, i + half_window]`. -/
theorem positionPass_get?_full (path : List Pose) (h i : ℕ)
    (hhi : h ≤ i) (hin : i + h + 1 ≤ path.length) (hh : h ≤ 2 ^ 32)
    (hn : path.length ≤ 2 ^ 32) :
    (positionPass path h).get? i = some
      { position :=
          { x := ((List.range' (i - h) (2 * h + 1)).map (fun j => (posAt path j).x)).sum
                  / ((2 * h + 1 : ℕ) : ℚ)
            y := ((List.range' (i - h) (2 * h + 1)).map (fun j => (posAt path j).y)).sum
                  / ((2 * h + 1 : ℕ) : ℚ)
            z := ((List.range' (i - h) (2 * h + 1)).map (fun j => (posAt path j).z)).sum
                  / ((2 * h + 1 : ℕ) : ℚ) }
        orientation := orientAt path i } := by
  have hi : i < path.length := by omega
  have hstart : sub64 i h = i - h := by
    unfold sub64
    omega
  have hwin : min64 (add64 i h) (sub64 path.length 1) + 1 - sub64 i h = 2 * h + 1 := by
    unfold sub64 add64 min64
    omega
  have hpos : 0 < 2 * h + 1 := by omega
  rw [positionPass, List.get?_map, List.get?_range hi]
  simp only [Option.map_some']
  rw [hwin, hstart, List.length_range', if_pos hpos]

/-- Pose `j` of a linear path sits at `a + j • d`. -/
theorem mkLinearPath_posAt (a d : Position) (qr : Orientation) (n j : ℕ) (hj : j < n) :
    posAt (mkLinearPath a d qr n) j
      = { x := a.x + (j : ℚ) * d.x, y := a.y + (j : ℚ) * d.y, z := a.z + (j : ℚ) * d.z } := by
  rw [posAt, mkLinearPath, List.get?_map, List.get?_range hj]
  rfl

theorem mkLinearPath_length (a d : Position) (qr : Orientation) (n : ℕ) :
    (mkLinearPath a d qr n).length = n := by
  simp [mkLinearPath]

/-- **C9, amended.**  On a collinear, evenly spaced pose sequence
(`pose j` at `a + j • d`), the smoother reproduces the input position at
every index `i` that is either among the first `half_window` indices
(where the underflowed window is empty and the raw pose is copied) or
whose symmetric window lies fully inside the sequence (where the average
of an affine sequence over a symmetric window is its midpoint).  The
claim fails only at the trailing boundary indices, where the shortened
asymmetric window drags the position inward (`c9_counterexample`).  The
`2^32` bounds keep the `size_t` index arithmetic away from wrap-around. -/
theorem c9_amended (a d : Position) (qr : Orientation) (n w i : ℕ)
    (hn : n ≤ 2 ^ 32) (hw : w ≤ 2 ^ 32) (hi : i < n)
    (hcase : i < w / 2 ∨ i + w / 2 + 1 ≤ n) :
    ((averageFilterPath (mkLinearPath a d qr n) w).get? i).map (fun p => p.position)
      = some { x := a.x + (i : ℚ) * d.x, y := a.y + (i : ℚ) * d.y,
               z := a.z + (i : ℚ) * d.z } := by
  have hlen := mkLinearPath_length a d qr n
  have hh : w / 2 ≤ 2 ^ 32 := le_trans (Nat.div_le_self _ _) hw
  rw [averageFilterPath, orientationPass_position]
  by_cases hlt : i < w / 2
  · rw [positionPass_get?_underflow _ _ _ (by rw [hlen]; exact hi) hlt hh
      (by rw [hlen]; exact hn)]
    rw [Option.map_some']
    rw [mkLinearPath_posAt a d qr n i hi]
  · have hhi : w / 2 ≤ i := le_of_not_lt hlt
    have hfull : i + w / 2 + 1 ≤ n := by
      rcases hcase with h1 | h2
      · exact absurd h1 hlt
      · exact h2
    rw [positionPass_get?_full _ (w / 2) i hhi (by rw [hlen]; omega) hh
      (by rw [hlen]; exact hn)]
    have hmem : ∀ coord : Position → ℚ,
        ((List.range' (i - w / 2) (2 * (w / 2) + 1)).map
            (fun j => coord (posAt (mkLinearPath a d qr n) j)))
          = ((List.range' (i - w / 2) (2 * (w / 2) + 1)).map
            (fun (j : ℕ) => coord { x := a.x + (j : ℚ) * d.x, y := a.y + (j : ℚ) * d.y,
                                    z := a.z + (j : ℚ) * d.z })) := by
      intro coord
      apply List.map_congr_left
      intro j hj
      rw [List.mem_range'_1] at hj
      rw [mkLinearPath_posAt a d qr n j (by omega)]
    have hS : ((List.range' (i - w / 2) (2 * (w / 2) + 1)).map
        (fun (j : ℕ) => (j : ℚ))).sum = ((2 * (w / 2) + 1 : ℕ) : ℚ) * (i : ℚ) := by
      have h2 := sum_range'_cast_mul_two (2 * (w / 2) + 1) (i - w / 2)
      have hcs : (((i - w / 2 : ℕ)) : ℚ) = (i : ℚ) - ((w / 2 : ℕ) : ℚ) := by
        rw [Nat.cast_sub hhi]
      rw [hcs] at h2
      push_cast at h2 ⊢
      nlinarith [h2]
    have hm0 : (((2 * (w / 2) + 1 : ℕ)) : ℚ) ≠ 0 := by
      push_cast
      positivity
    rw [Option.map_some']
    have hx := hmem (fun p => p.x)
    have hy := hmem (fun p => p.y)
    have hz := hmem (fun p => p.z)
    simp only at hx hy hz
    have hfin : ∀ A B : ℚ,
        (((2 * (w / 2) + 1 : ℕ) : ℚ) * A + (((2 * (w / 2) + 1 : ℕ) : ℚ) * (i : ℚ)) * B)
            / ((2 * (w / 2) + 1 : ℕ) : ℚ) = A + (i : ℚ) * B := by
      intro A B
      field_simp
      ring
    rw [hx, hy, hz, sum_range'_affine a.x d.x, sum_range'_affine a.y d.y,
      sum_range'_affine a.z d.z, hS, hfin a.x d.x, hfin a.y d.y, hfin a.z d.z]

/-- **C9, witness.** -/
theorem c9_witness :
    ((averageFilterPath (mkLinearPath ⟨0, 0, 0⟩ ⟨3, 0, 0⟩ q0 3) 2).get? 1).map
        (fun p => p.position)
      = some { x := 0 + ((1 : ℕ) : ℚ) * 3, y := 0 + ((1 : ℕ) : ℚ) * 0,
               z := 0 + ((1 : ℕ) : ℚ) * 0 } :=
  c9_amended ⟨0, 0, 0⟩ ⟨3, 0, 0⟩ q0 3 2 1 (by norm_num) (by norm_num) (by norm_num)
    (Or.inr (by norm_num))

end PerceptionDiag
